import Mathlib

/-!
# Verification of the Enshrouded Crafting Index client core

Shallow embedding of the query/index/navigation engine in `src/app/page.tsx`
(the variant with the side panel, navigation stack and obtaining-info fetcher)
together with the payload expansion helper, and proofs of the spec's testable
properties about them.

Modelling conventions:
* A JavaScript `Map<string, T>` built by insertion is an association list
  (`List (String × T)`) with `List.lookup`; `map.set` on a fresh key appends.
* `Array.prototype.sort` with a consistent comparator is required by the
  ECMAScript standard to be a stable sort; for a comparator of the form
  `mult * cmp(keyOf a, keyOf b)` any stable sort agreeing with the comparator
  produces the same list, so it is embedded as `List.mergeSort` with
  `le a b := (comparator a b ≤ 0)`.
* `undefined` / `null` record fields are `Option`; JS string truthiness is
  `≠ ""`; quantities (JS numbers, integral in the dataset) are `Int`.
-/

namespace CraftingIndex

/-- The `CraftingRecipe` structure from `src/app/types/items.ts`: one object per crafted
item. `Workshop`/`Workshop2` may be `null`/absent (`Option`). -/
structure CraftingRecipe where
  CraftedItem : String
  Crafter : String
  Workshop : Option String
  Workshop2 : Option String
  CraftedQuantity : String
  SourceItem : List String
  SourceQuantity : List Int
deriving DecidableEq, Repr

/-- The sort key union type `"CraftedItem" | "Crafter" | "Workshop"`. -/
inductive SortKey
  | CraftedItem
  | Crafter
  | Workshop
deriving DecidableEq, Repr

/-- The sort direction union type `"asc" | "desc"`. -/
inductive SortDir
  | asc
  | desc
deriving DecidableEq, Repr

/-- Lexicographic `≤` on character sequences: the `le` form of the JS string
comparator (`aVal === bVal ? 0 : aVal < bVal ? -1 : 1` is `≤ 0` exactly for
lexicographically smaller-or-equal strings). JS compares UTF-16 code units;
on these item names (no surrogate pairs) that coincides with code-point
order. Structurally recursive so that the kernel can evaluate it (the
library's String order instances do not reduce). -/
def charsLe : List Char → List Char → Bool
  | [], _ => true
  | _ :: _, [] => false
  | a :: as, b :: bs =>
    if a < b then true
    else if b < a then false
    else charsLe as bs

/-- JS `aVal <= bVal` on strings, via `charsLe` on the character data. -/
def strLe (a b : String) : Bool := charsLe a.data b.data

/-- The relation `charsLe` is total. -/
theorem charsLe_total : ∀ (a b : List Char), (charsLe a b || charsLe b a) = true
  | [], _ => by simp [charsLe]
  | _ :: _, [] => by simp [charsLe]
  | a :: as, b :: bs => by
    rcases lt_trichotomy a b with h | h | h
    · simp [charsLe, h]
    · subst h
      simp only [charsLe, lt_irrefl, if_false]
      exact charsLe_total as bs
    · simp [charsLe, h, lt_asymm h]

/-- The relation `charsLe` is transitive. -/
theorem charsLe_trans : ∀ {a b c : List Char},
    charsLe a b = true → charsLe b c = true → charsLe a c = true
  | [], _, _, _, _ => by simp [charsLe]
  | _ :: _, [], _, h₁, _ => by simp [charsLe] at h₁
  | _ :: _, _ :: _, [], _, h₂ => by simp [charsLe] at h₂
  | a :: as, b :: bs, c :: cs, h₁, h₂ => by
    rcases lt_trichotomy a b with hab | hab | hab
    · rcases lt_trichotomy b c with hbc | hbc | hbc
      · simp [charsLe, lt_trans hab hbc]
      · subst hbc; simp [charsLe, hab]
      · simp [charsLe, hbc, lt_asymm hbc] at h₂
    · subst hab
      rcases lt_trichotomy a c with hac | hac | hac
      · simp [charsLe, hac]
      · subst hac
        simp only [charsLe, lt_irrefl, if_false] at h₁ h₂ ⊢
        exact charsLe_trans h₁ h₂
      · simp [charsLe, hac, lt_asymm hac] at h₂
    · simp [charsLe, hab, lt_asymm hab] at h₁

/-- The relation `charsLe` is antisymmetric. -/
theorem charsLe_antisymm : ∀ {a b : List Char},
    charsLe a b = true → charsLe b a = true → a = b
  | [], [], _, _ => rfl
  | [], _ :: _, _, h₂ => by simp [charsLe] at h₂
  | _ :: _, [], h₁, _ => by simp [charsLe] at h₁
  | a :: as, b :: bs, h₁, h₂ => by
    rcases lt_trichotomy a b with h | h | h
    · simp [charsLe, h, lt_asymm h] at h₂
    · subst h
      simp only [charsLe, lt_irrefl, if_false] at h₁ h₂
      rw [charsLe_antisymm h₁ h₂]
    · simp [charsLe, h, lt_asymm h] at h₁

/-- The relation `charsLe` is reflexive. -/
theorem charsLe_refl : ∀ (a : List Char), charsLe a a = true
  | [] => rfl
  | a :: as => by
    simp only [charsLe, lt_irrefl, if_false]
    exact charsLe_refl as

/-- The relation `strLe` is antisymmetric. -/
theorem strLe_antisymm {a b : String} (h₁ : strLe a b = true)
    (h₂ : strLe b a = true) : a = b := by
  have h : a.data = b.data := charsLe_antisymm h₁ h₂
  exact congrArg String.mk h

/-- Compact payload item with abbreviated field keys (`{n,c,w,w2,q,s,sq}`),
each possibly `null` or missing (both are `none`). -/
structure ShortItem where
  n : Option String
  c : Option String
  w : Option String
  w2 : Option String
  q : Option String
  s : Option (List String)
  sq : Option (List Int)
deriving DecidableEq, Repr

/-- The `expandItem` helper (page.tsx): expands a short-key payload item into the
`CraftingRecipe` shape, defaulting `null`/missing via `??`. -/
def expandItem (short : ShortItem) : CraftingRecipe :=
  { CraftedItem := short.n.getD ""
    Crafter := short.c.getD ""
    Workshop := short.w
    Workshop2 := short.w2
    CraftedQuantity := short.q.getD ""
    SourceItem := short.s.getD []
    SourceQuantity := short.sq.getD [] }

/-- The comparator's key access `a[sortKey] ?? ""` (a missing `Workshop`
reads as the empty string). -/
def sortKeyVal (k : SortKey) (r : CraftingRecipe) : String :=
  match k with
  | .CraftedItem => r.CraftedItem
  | .Crafter => r.Crafter
  | .Workshop => r.Workshop.getD ""

/-- The `le` form of the comparator
`mult * (aVal === bVal ? 0 : aVal < bVal ? -1 : 1)` with
`mult = 1` for `asc` and `-1` for `desc`: `le a b ↔ comparator a b ≤ 0`. -/
def sortLe (k : SortKey) (d : SortDir) (a b : CraftingRecipe) : Bool :=
  match d with
  | .asc => strLe (sortKeyVal k a) (sortKeyVal k b)
  | .desc => strLe (sortKeyVal k b) (sortKeyVal k a)

/-- The relation `sortLe` is transitive, in the form `List.sorted_mergeSort` expects. -/
theorem sortLe_trans (k : SortKey) (d : SortDir) :
    ∀ (a b c : CraftingRecipe),
      sortLe k d a b → sortLe k d b c → sortLe k d a c := by
  cases d
  · exact fun a b c h₁ h₂ => charsLe_trans h₁ h₂
  · exact fun a b c h₁ h₂ => charsLe_trans h₂ h₁

/-- The relation `sortLe` is total, in the form `List.sorted_mergeSort` expects. -/
theorem sortLe_total (k : SortKey) (d : SortDir) :
    ∀ (a b : CraftingRecipe), sortLe k d a b || sortLe k d b a := by
  cases d
  · exact fun a b => charsLe_total (sortKeyVal k a).data (sortKeyVal k b).data
  · exact fun a b => by
      have := charsLe_total (sortKeyVal k b).data (sortKeyVal k a).data
      simpa [sortLe, strLe, Bool.or_comm] using this

/-- Mutual `sortLe` forces equal sort keys. -/
theorem sortKeyVal_eq_of_sortLe {k : SortKey} {d : SortDir}
    {a b : CraftingRecipe} (h₁ : sortLe k d a b) (h₂ : sortLe k d b a) :
    sortKeyVal k a = sortKeyVal k b := by
  cases d
  · exact strLe_antisymm h₁ h₂
  · exact strLe_antisymm h₂ h₁

/-- The sort stage `[...list].sort(comparator)`: a stable sort by the
comparator (see module docstring for why `mergeSort` is the faithful model). -/
def sortStage (k : SortKey) (d : SortDir) (l : List CraftingRecipe) :
    List CraftingRecipe :=
  l.mergeSort (sortLe k d)

/-- The text-stage condition `query.trim()` (truthy iff the trimmed query is
nonempty). `String.trim` is defined by well-founded recursion, which the
kernel cannot evaluate, so the equivalent test "the query has a
non-whitespace character" is used: trimming removes exactly the leading and
trailing whitespace, hence `query.trim()` is nonempty iff some character of
`query` is not whitespace. -/
def queryNonBlank (query : String) : Bool :=
  query.data.any (fun c => !c.isWhitespace)

/-- The `filtered` memo (page.tsx lines 727-738): text stage (empty/whitespace
query bypasses the Fuse index, i.e. the `search` parameter), then the two
categorical filters guarded by the `"All"` sentinel, then the sort stage. -/
def filtered (search : String → List CraftingRecipe)
    (items : List CraftingRecipe)
    (query crafterFilter workshopFilter : String)
    (k : SortKey) (d : SortDir) : List CraftingRecipe :=
  let l1 := if queryNonBlank query then search query else items
  let l2 :=
    if crafterFilter = "All" then l1
    else l1.filter (fun r => r.Crafter == crafterFilter)
  let l3 :=
    if workshopFilter = "All" then l2
    else l2.filter (fun r => r.Workshop == some workshopFilter)
  sortStage k d l3

/-- One fold step of the `craftableByName` memo:
`if (r.CraftedItem && !map.has(r.CraftedItem)) map.set(r.CraftedItem, r)`. -/
def craftableStep (m : List (String × CraftingRecipe)) (r : CraftingRecipe) :
    List (String × CraftingRecipe) :=
  if r.CraftedItem ≠ "" ∧ (m.lookup r.CraftedItem).isNone then
    m ++ [(r.CraftedItem, r)]
  else m

/-- The `craftableByName` memo (page.tsx lines 708-714): a map from item name
to the first record in dataset order with that (non-empty) `CraftedItem`. -/
def craftableByName (items : List CraftingRecipe) :
    List (String × CraftingRecipe) :=
  items.foldl craftableStep []

/-- Lookup `craftableByName.get(name)`. -/
def craftableLookup (items : List CraftingRecipe) (name : String) :
    Option CraftingRecipe :=
  (craftableByName items).lookup name

/-- The `openIngredient` callback (page.tsx lines 754-765) restricted to its effect on the
panel stack: a `craftableByName` miss returns before any update; a hit appends
the found record, seeding the stack with the parent record when the stack is
empty and a parent was supplied. -/
def openIngredient (items : List CraftingRecipe) (name : String)
    (parentRecipe : Option CraftingRecipe) (prev : List CraftingRecipe) :
    List CraftingRecipe :=
  match craftableLookup items name with
  | none => prev
  | some recipe =>
    match parentRecipe, prev with
    | some p, [] => [p, recipe]
    | _, _ => prev ++ [recipe]

/-- The `popToIndex` callback (page.tsx lines 767-769): `prev.slice(0, index + 1)`.
Every call site passes a nonnegative index, so `Nat` is faithful. -/
def popToIndex (prev : List CraftingRecipe) (index : Nat) :
    List CraftingRecipe :=
  prev.take (index + 1)

/-- The `ingredients` view in `RecipeCard` (page.tsx lines 429-432):
`recipe.SourceItem.map((name, i) => ({name, qty: recipe.SourceQuantity[i] ?? 1}))`. -/
def ingredients (recipe : CraftingRecipe) : List (String × Int) :=
  recipe.SourceItem.enum.map
    (fun p => (p.2, (recipe.SourceQuantity[p.1]?).getD 1))

/-- The `ObtainingState` union (page.tsx line 247):
`{ text: string } | "loading" | { error: string } | { noSection: true }`.
The unrequested state is the absent key, modelled as `none` at use sites. -/
inductive ObtainingState
  | loading
  | text (s : String)
  | noSection
  | error (msg : String)
deriving DecidableEq, Repr

/-- The guarded updater passed to `setObtainingByItem` in `fetchObtaining`,
restricted to the one item name's cell: keep `loading` and the terminal
`text`/`noSection` states, otherwise (absent key or `error`) write `loading`. -/
def requestGuard (cur : Option ObtainingState) : Option ObtainingState :=
  match cur with
  | some .loading => some .loading
  | some (.text t) => some (.text t)
  | some .noSection => some .noSection
  | _ => some .loading

/-- Per-item-name fetch cell: the state-table entry for one name plus a count
of the network sequences (`fetchObtainingSection` calls) started for it. -/
structure FetchCell where
  state : Option ObtainingState
  startedFetches : Nat
deriving DecidableEq, Repr

/-- One invocation of `fetchObtaining` (page.tsx lines 663-684) for a fixed
item name. The guard above runs inside the `setObtainingByItem` updater, but
`fetchObtainingSection(itemName)` is invoked unconditionally right after it,
outside the guard — so every invocation starts a network sequence. -/
def fetchObtaining (c : FetchCell) : FetchCell :=
  { state := requestGuard c.state, startedFetches := c.startedFetches + 1 }

/-- Completion of one started network sequence: the `.then`/`.catch` handlers
write the outcome (`text`, `noSection` or `error`) into the cell
unconditionally. -/
def resolveObtaining (c : FetchCell) (outcome : ObtainingState) : FetchCell :=
  { state := some outcome, startedFetches := c.startedFetches }

/-! ## Concrete example data used by counterexamples and witnesses -/

/-- The spec's duplicate-name example, record with crafter `"A"`. -/
def torchA : CraftingRecipe := ⟨"Torch", "A", none, none, "1", [], []⟩

/-- The spec's duplicate-name example, record with crafter `"B"`. -/
def torchB : CraftingRecipe := ⟨"Torch", "B", none, none, "1", [], []⟩

/-- Two records with the same `CraftedItem`, `"A"` first in dataset order. -/
def exTorch : List CraftingRecipe := [torchA, torchB]

/-- Record named `"B"`, sorted after `recA` by `CraftedItem`. -/
def recB : CraftingRecipe := ⟨"B", "Smith", none, none, "1", [], []⟩

/-- Record named `"A"`, sorted before `recB` by `CraftedItem`. -/
def recA : CraftingRecipe := ⟨"A", "Miner", none, none, "1", [], []⟩

/-- A dataset that is NOT in ascending `CraftedItem` order. -/
def unsortedPair : List CraftingRecipe := [recB, recA]

/-- The same records pre-sorted ascending by `CraftedItem`, as the data
producer ships them. -/
def sortedPair : List CraftingRecipe := [recA, recB]

/-- A record whose ingredient and quantity lists have mismatched lengths. -/
def mismatchRec : CraftingRecipe :=
  ⟨"Plank", "Carpenter", none, none, "2", ["Wood", "Stone"], [4]⟩

/-- A malformed record with an empty `CraftedItem`. -/
def emptyNameRec : CraftingRecipe := ⟨"", "A", none, none, "1", [], []⟩

/-! ## Theorems -/

/-- C5: expanding the compact-form item
`{n:"Plank",c:"Carpenter",w:null,q:"2",s:["Wood"],sq:[4]}` yields the full
record `{CraftedItem:"Plank",Crafter:"Carpenter",Workshop:null,
CraftedQuantity:"2",SourceItem:["Wood"],SourceQuantity:[4]}`, and in general
each field of the expansion is the short field with its `null`/missing
default. -/
theorem c5_expandItem_defaults :
    expandItem ⟨some "Plank", some "Carpenter", none, none, some "2",
        some ["Wood"], some [4]⟩ =
      ⟨"Plank", "Carpenter", none, none, "2", ["Wood"], [4]⟩
    ∧ ∀ short : ShortItem,
        (expandItem short).CraftedItem = short.n.getD ""
        ∧ (expandItem short).Crafter = short.c.getD ""
        ∧ (expandItem short).Workshop = short.w
        ∧ (expandItem short).Workshop2 = short.w2
        ∧ (expandItem short).CraftedQuantity = short.q.getD ""
        ∧ (expandItem short).SourceItem = short.s.getD []
        ∧ (expandItem short).SourceQuantity = short.sq.getD [] :=
  ⟨rfl, fun _ => ⟨rfl, rfl, rfl, rfl, rfl, rfl, rfl⟩⟩

/-- C10: `popTo(k)` with `k ≥ length - 1` leaves the stack unchanged. -/
theorem c10_popTo_out_of_range (stack : List CraftingRecipe) (k : Nat)
    (h : stack.length - 1 ≤ k) : popToIndex stack k = stack :=
  List.take_of_length_le (by omega)

/-- Witness for `c10_popTo_out_of_range` on a singleton stack with `k = 0`. -/
theorem c10_popTo_out_of_range_witness :
    ([torchA] : List CraftingRecipe).length - 1 ≤ 0
    ∧ popToIndex [torchA] 0 = [torchA] :=
  ⟨by decide, c10_popTo_out_of_range [torchA] 0 (by decide)⟩

/-- C2 fails on the code: the state guard in `fetchObtaining` wraps only the
`setObtainingByItem` update, while `fetchObtainingSection(itemName)` is called
unconditionally — so two invocations of the request for the same name, the
second while the first is still `loading`, start two network sequences (the
claim requires exactly one), and a re-request in the terminal `text` state
also starts a fresh network sequence whose completion overwrites the cached
entry. -/
theorem c2_double_request_starts_two_fetches :
    (fetchObtaining ⟨none, 0⟩).state = some ObtainingState.loading
    ∧ (fetchObtaining (fetchObtaining ⟨none, 0⟩)).state
        = some ObtainingState.loading
    ∧ (fetchObtaining (fetchObtaining ⟨none, 0⟩)).startedFetches = 2
    ∧ fetchObtaining ⟨some (ObtainingState.text "cached"), 1⟩
        = ⟨some (ObtainingState.text "cached"), 2⟩ :=
  ⟨rfl, rfl, rfl, rfl⟩

/-- C1 fails as stated: the sort stage of `filtered` always runs, so on a
dataset that is not already in ascending `CraftedItem` order (the default sort
key), an empty query with both filters at `"All"` does not return the dataset
in its original order. -/
theorem c1_counterexample :
    filtered (fun _ => []) unsortedPair "" "All" "All"
        SortKey.CraftedItem SortDir.asc
      ≠ unsortedPair := by
  intro h
  have h1 : filtered (fun _ => []) unsortedPair "" "All" "All"
      SortKey.CraftedItem SortDir.asc
      = unsortedPair.mergeSort (sortLe SortKey.CraftedItem SortDir.asc) := rfl
  rw [h1] at h
  have hs := List.sorted_mergeSort
    (sortLe_trans SortKey.CraftedItem SortDir.asc)
    (sortLe_total SortKey.CraftedItem SortDir.asc) unsortedPair
  rw [h] at hs
  simp only [unsortedPair, List.pairwise_cons] at hs
  have hba : sortLe SortKey.CraftedItem SortDir.asc recB recA :=
    hs.1 recA (List.mem_singleton_self recA)
  exact absurd hba (by decide)

/-- C1 (amended): with an empty or whitespace-only query and both categorical
filters at `"All"`, the Query Engine returns exactly the records of the
dataset (a permutation of it), stably sorted by the active sort key and
direction; in particular it returns the dataset unchanged whenever the
dataset is already sorted by that key and direction (the shipped dataset is
pre-sorted ascending by `CraftedItem`, the default sort key). -/
theorem c1_empty_query_all_filters (search : String → List CraftingRecipe)
    (items : List CraftingRecipe) (query : String) (k : SortKey) (d : SortDir)
    (hq : queryNonBlank query = false) :
    filtered search items query "All" "All" k d = sortStage k d items
    ∧ (filtered search items query "All" "All" k d).Perm items
    ∧ (items.Pairwise (fun a b => sortLe k d a b = true) →
        filtered search items query "All" "All" k d = items) := by
  have h1 : filtered search items query "All" "All" k d = sortStage k d items := by
    simp [filtered, hq]
  refine ⟨h1, ?_, ?_⟩
  · rw [h1]
    exact List.mergeSort_perm items (sortLe k d)
  · intro hs
    rw [h1]
    exact List.mergeSort_of_sorted hs

/-- Witness for `c1_empty_query_all_filters`: a whitespace-only query on a
dataset already sorted by the default key returns it unchanged. -/
theorem c1_empty_query_all_filters_witness :
    queryNonBlank "  " = false
    ∧ filtered (fun _ => []) sortedPair "  " "All" "All"
        SortKey.CraftedItem SortDir.asc = sortedPair :=
  ⟨by decide,
    (c1_empty_query_all_filters (fun _ => []) sortedPair "  "
      SortKey.CraftedItem SortDir.asc (by decide)).2.2 (by decide)⟩

/-- C6: pushing an ingredient name that misses `craftableByName` leaves the
navigation stack unchanged (the lookup miss returns before any state update);
on a hit the found record is appended (it becomes the new last element), and
outside the seed-with-parent special case (empty stack with a parent record
supplied) the new stack is exactly the old stack with the record appended. -/
theorem c6_openIngredient (items : List CraftingRecipe) (name : String)
    (parentRecipe : Option CraftingRecipe) (stack : List CraftingRecipe) :
    (craftableLookup items name = none →
      openIngredient items name parentRecipe stack = stack)
    ∧ ∀ r, craftableLookup items name = some r →
        (openIngredient items name parentRecipe stack).getLast? = some r
        ∧ (stack ≠ [] ∨ parentRecipe = none →
            openIngredient items name parentRecipe stack = stack ++ [r]) := by
  constructor
  · intro h
    simp [openIngredient, h]
  · intro r h
    match parentRecipe, stack with
    | some p, [] =>
      refine ⟨by simp [openIngredient, h], ?_⟩
      rintro (hne | hpn)
      · exact absurd rfl hne
      · exact absurd hpn (by simp)
    | some p, x :: xs =>
      have he : openIngredient items name (some p) (x :: xs) = (x :: xs) ++ [r] := by
        simp [openIngredient, h]
      exact ⟨by rw [he, List.getLast?_concat], fun _ => he⟩
    | none, [] =>
      exact ⟨by simp [openIngredient, h], fun _ => by simp [openIngredient, h]⟩
    | none, x :: xs =>
      have he : openIngredient items name none (x :: xs) = (x :: xs) ++ [r] := by
        simp [openIngredient, h]
      exact ⟨by rw [he, List.getLast?_concat], fun _ => he⟩

/-- Witness for `c6_openIngredient`: a miss (`"Missing"`) is a no-op on a
nonempty stack, and a hit (`"Torch"`) appends the first `"Torch"` record. -/
theorem c6_openIngredient_witness :
    openIngredient exTorch "Missing" none [torchA] = [torchA]
    ∧ (openIngredient exTorch "Torch" none [torchB]).getLast? = some torchA
    ∧ openIngredient exTorch "Torch" none [torchB] = [torchB] ++ [torchA] :=
  ⟨(c6_openIngredient exTorch "Missing" none [torchA]).1 (by decide),
    ((c6_openIngredient exTorch "Torch" none [torchB]).2 torchA (by decide)).1,
    ((c6_openIngredient exTorch "Torch" none [torchB]).2 torchA (by decide)).2
      (Or.inr rfl)⟩

/-- Helper for C3: the sort stage is stable — filtering the sorted output to
any fixed key value yields the same sequence as filtering the input, because
the input filtered to one key value is a `sortLe`-sorted sublist of the input
and merge sort keeps sorted sublists (`List.sublist_mergeSort`). -/
theorem sortStage_filter_key (k : SortKey) (d : SortDir)
    (l : List CraftingRecipe) (v : String) :
    (sortStage k d l).filter (fun r => sortKeyVal k r == v)
      = l.filter (fun r => sortKeyVal k r == v) := by
  set p : CraftingRecipe → Bool := fun r => sortKeyVal k r == v with hp
  have hmem : ∀ r ∈ l.filter p, sortKeyVal k r = v := by
    intro r hr
    have := List.of_mem_filter hr
    rw [hp] at this
    exact eq_of_beq this
  have hpw : (l.filter p).Pairwise (fun a b => sortLe k d a b = true) := by
    apply List.pairwise_of_forall_mem_list
    intro a ha b hb
    have h₁ := hmem a ha
    have h₂ := hmem b hb
    cases d <;> simp [sortLe, strLe, h₁, h₂, charsLe_refl]
  have hsub : List.Sublist (l.filter p) (sortStage k d l) :=
    List.sublist_mergeSort (sortLe_trans k d) (sortLe_total k d) hpw
      (List.filter_sublist l)
  have hself : (l.filter p).filter p = l.filter p :=
    List.filter_eq_self.mpr (fun a ha => List.of_mem_filter ha)
  have hsubf : List.Sublist (l.filter p) ((sortStage k d l).filter p) := by
    have := hsub.filter p
    rwa [hself] at this
  have hperm : List.Perm ((sortStage k d l).filter p) (l.filter p) :=
    (List.mergeSort_perm l (sortLe k d)).filter p
  exact (hsubf.eq_of_length (by rw [hperm.length_eq])).symm

/-- Helper for C3: when the key values of the input are pairwise distinct,
sorting descending is exactly the reverse of sorting ascending — both are
permutations of the input sorted by the (on these elements antisymmetric)
descending comparator, and such a list is unique. -/
theorem sortStage_desc_eq_reverse_asc (k : SortKey) (l : List CraftingRecipe)
    (h : (l.map (sortKeyVal k)).Nodup) :
    sortStage k SortDir.desc l = (sortStage k SortDir.asc l).reverse := by
  have hinj : ∀ a ∈ l, ∀ b ∈ l, sortKeyVal k a = sortKeyVal k b → a = b :=
    List.inj_on_of_nodup_map h
  have pA : List.Perm (sortStage k SortDir.asc l) l :=
    List.mergeSort_perm l (sortLe k SortDir.asc)
  have pB : List.Perm (sortStage k SortDir.desc l) l :=
    List.mergeSort_perm l (sortLe k SortDir.desc)
  have pRev : List.Perm (sortStage k SortDir.desc l) ((sortStage k SortDir.asc l).reverse) :=
    pB.trans (pA.symm.trans (List.reverse_perm _).symm)
  have sB : (sortStage k SortDir.desc l).Pairwise
      (fun a b => sortLe k SortDir.desc a b = true) :=
    List.sorted_mergeSort (sortLe_trans k SortDir.desc)
      (sortLe_total k SortDir.desc) l
  have sA : (sortStage k SortDir.asc l).Pairwise
      (fun a b => sortLe k SortDir.asc a b = true) :=
    List.sorted_mergeSort (sortLe_trans k SortDir.asc)
      (sortLe_total k SortDir.asc) l
  have sArev : ((sortStage k SortDir.asc l).reverse).Pairwise
      (fun a b => sortLe k SortDir.desc a b = true) := by
    rw [List.pairwise_reverse]
    exact sA
  refine List.Perm.eq_of_sorted ?_ sB sArev pRev
  intro a b ha hb hab hba
  have ha' : a ∈ l := pB.subset ha
  have hb' : b ∈ l := pA.subset (List.reverse_perm _ |>.subset hb)
  exact hinj a ha' b hb' (sortKeyVal_eq_of_sortLe hab hba)

/-- C3: for every record list and sort key, sorting descending yields the
exact reverse of sorting ascending when the key values are pairwise distinct,
and in both directions elements with equal key values keep their relative
order from the pre-sort stage (stability, stated as: filtering the sorted
output to any one key value gives the same sequence as filtering the
input). -/
theorem c3_sort_reverse_and_stability (l : List CraftingRecipe) (k : SortKey) :
    ((l.map (sortKeyVal k)).Nodup →
      sortStage k SortDir.desc l = (sortStage k SortDir.asc l).reverse)
    ∧ ∀ (d : SortDir) (v : String),
        (sortStage k d l).filter (fun r => sortKeyVal k r == v)
          = l.filter (fun r => sortKeyVal k r == v) :=
  ⟨fun h => sortStage_desc_eq_reverse_asc k l h,
    fun d v => sortStage_filter_key k d l v⟩

/-- Witness for `c3_sort_reverse_and_stability`: on the two-record dataset
with distinct names, descending sort is the reverse of ascending sort. -/
theorem c3_sort_reverse_and_stability_witness :
    (unsortedPair.map (sortKeyVal SortKey.CraftedItem)).Nodup
    ∧ sortStage SortKey.CraftedItem SortDir.desc unsortedPair
        = (sortStage SortKey.CraftedItem SortDir.asc unsortedPair).reverse :=
  ⟨by decide,
    (c3_sort_reverse_and_stability unsortedPair SortKey.CraftedItem).1
      (by decide)⟩

/-- C7: on a stack of length `n`, `popTo(k)` with `k < n - 1` yields a stack
of length `k + 1` that consists of the first `k + 1` elements of the original
stack and whose last element is the original element at position `k`. -/
theorem c7_popTo_truncates (stack : List CraftingRecipe) (k : Nat)
    (h : k < stack.length - 1) :
    (popToIndex stack k).length = k + 1
    ∧ popToIndex stack k = stack.take (k + 1)
    ∧ ∃ hk : k < stack.length,
        (popToIndex stack k).getLast? = some (stack.get ⟨k, hk⟩) := by
  have hk : k < stack.length := by omega
  refine ⟨?_, rfl, hk, ?_⟩
  · simp [popToIndex]
    omega
  · rw [List.getLast?_eq_getElem?]
    have hlen : (popToIndex stack k).length = k + 1 := by
      simp [popToIndex]
      omega
    rw [hlen]
    simp only [Nat.add_sub_cancel, popToIndex]
    rw [List.getElem?_take_of_lt (Nat.lt_succ_self k)]
    simp [hk]

/-- Witness for `c7_popTo_truncates`: `popTo(0)` on a two-element stack. -/
theorem c7_popTo_truncates_witness :
    0 < (exTorch.length - 1)
    ∧ (popToIndex exTorch 0).length = 0 + 1
    ∧ popToIndex exTorch 0 = exTorch.take (0 + 1)
    ∧ ∃ hk : 0 < exTorch.length,
        (popToIndex exTorch 0).getLast? = some (exTorch.get ⟨0, hk⟩) :=
  ⟨by decide, c7_popTo_truncates exTorch 0 (by decide)⟩

/-- Helper for C4: folding `craftableStep` over the dataset resolves a
non-empty name to the map's existing binding if any, else to the first record
of the dataset with that `CraftedItem`. -/
theorem lookup_foldl_craftableStep (name : String) (hname : name ≠ "") :
    ∀ (l : List CraftingRecipe) (m : List (String × CraftingRecipe)),
      (l.foldl craftableStep m).lookup name
        = (m.lookup name).or (l.find? (fun r => r.CraftedItem == name))
  | [], m => by simp [Option.or_none]
  | r :: t, m => by
    rw [List.foldl_cons, lookup_foldl_craftableStep name hname t]
    by_cases hk : r.CraftedItem = ""
    · have hstep : craftableStep m r = m := by simp [craftableStep, hk]
      have hpr : (r.CraftedItem == name) = false := by
        rw [hk]
        exact beq_false_of_ne (Ne.symm hname)
      rw [hstep, List.find?_cons, hpr]
    · by_cases hm : (m.lookup r.CraftedItem).isNone
      · have hstep : craftableStep m r = m ++ [(r.CraftedItem, r)] := by
          simp [craftableStep, hk, hm]
        rw [hstep, List.lookup_append]
        by_cases heq : r.CraftedItem = name
        · have hmn : m.lookup name = none := by
            rw [← heq]
            exact Option.isNone_iff_eq_none.mp hm
          have hone : ([(r.CraftedItem, r)] : List (String × CraftingRecipe)).lookup name
              = some r := by
            simp [List.lookup_cons, heq]
          rw [hmn, hone, List.find?_cons, show (r.CraftedItem == name) = true from by
            simp [heq]]
          simp [Option.none_or, Option.or_some]
        · have hne : (name == r.CraftedItem) = false :=
            beq_false_of_ne (fun hh => heq hh.symm)
          have hone : ([(r.CraftedItem, r)] : List (String × CraftingRecipe)).lookup name
              = none := by
            rw [List.lookup_cons, hne]
            rfl
          rw [hone, Option.or_none, List.find?_cons, show (r.CraftedItem == name) = false from
            beq_false_of_ne heq]
      · have hstep : craftableStep m r = m := by simp [craftableStep, hm]
        rw [hstep]
        by_cases heq : r.CraftedItem = name
        · have hms : ∃ v, m.lookup name = some v := by
            rw [← heq]
            cases h : m.lookup r.CraftedItem with
            | none => exact absurd (by rw [h]; rfl) hm
            | some v => exact ⟨v, rfl⟩
          rcases hms with ⟨v, hv⟩
          simp [hv]
        · rw [List.find?_cons, show (r.CraftedItem == name) = false from
            beq_false_of_ne heq]

/-- Helper for C4: `craftableByName` lookup of a non-empty name is exactly
`find?` of the first record with that `CraftedItem` in dataset order. -/
theorem craftableLookup_eq_find (items : List CraftingRecipe) (name : String)
    (hname : name ≠ "") :
    craftableLookup items name
      = items.find? (fun r => r.CraftedItem == name) := by
  have h := lookup_foldl_craftableStep name hname items []
  simpa [craftableLookup, craftableByName, Option.none_or] using h

/-- C4 fails as stated for the empty item name: a record whose `CraftedItem`
is `""` does appear in the dataset, yet `craftableByName` never indexes the
empty name (the truthiness guard skips it), so the lookup returns nothing
rather than the first such record. -/
theorem c4_counterexample :
    (∃ r ∈ [emptyNameRec], r.CraftedItem = "")
    ∧ craftableLookup [emptyNameRec] "" = none
    ∧ ∀ r : CraftingRecipe, craftableLookup [emptyNameRec] "" ≠ some r := by
  refine ⟨⟨emptyNameRec, by decide, rfl⟩, by decide, ?_⟩
  intro r h
  have hn : craftableLookup [emptyNameRec] "" = none := by decide
  rw [hn] at h
  exact Option.noConfusion h

/-- C4 (amended): for every dataset and every NON-EMPTY item name appearing
as `CraftedItem` in at least one record, `craftableByName` maps the name to
the record with the lowest original dataset index among records whose
`CraftedItem` equals the name (first occurrence wins on duplicates); records
with an empty `CraftedItem` are never indexed. -/
theorem c4_first_occurrence_wins (items : List CraftingRecipe) (name : String)
    (hname : name ≠ "") (hex : ∃ r ∈ items, r.CraftedItem = name) :
    ∃ i : Fin items.length,
      craftableLookup items name = some (items.get i)
      ∧ (items.get i).CraftedItem = name
      ∧ ∀ j : Fin items.length, j < i → (items.get j).CraftedItem ≠ name := by
  have hfind := craftableLookup_eq_find items name hname
  obtain ⟨r, hr, hrn⟩ := hex
  have hsome : (items.find? (fun r => r.CraftedItem == name)).isSome := by
    rw [List.find?_isSome]
    exact ⟨r, hr, by simp [hrn]⟩
  obtain ⟨b, hb⟩ := Option.isSome_iff_exists.mp hsome
  obtain ⟨hpb, as, bs, hsplit, has⟩ := List.find?_eq_some.mp hb
  subst hsplit
  have hlen : as.length < (as ++ b :: bs).length := by
    simp [List.length_append]
  refine ⟨⟨as.length, hlen⟩, ?_, ?_, ?_⟩
  · rw [hfind, hb]
    congr 1
    rw [List.get_eq_getElem]
    rw [List.getElem_append_right (Nat.le_refl as.length)]
    simp
  · rw [List.get_eq_getElem]
    rw [List.getElem_append_right (Nat.le_refl as.length)]
    simpa using eq_of_beq hpb
  · intro j hj
    have hjlt : (j : Nat) < as.length := hj
    rw [List.get_eq_getElem, List.getElem_append_left hjlt]
    have hmem : as[(j : Nat)] ∈ as := List.getElem_mem hjlt
    have := has _ hmem
    intro hcontra
    rw [hcontra] at this
    simp at this

/-- Witness for `c4_first_occurrence_wins`: the spec's duplicate example — of
two `"Torch"` records the one with crafter `"A"` (lower index) is returned. -/
theorem c4_first_occurrence_wins_witness :
    craftableLookup exTorch "Torch" = some torchA
    ∧ ∃ i : Fin exTorch.length,
        craftableLookup exTorch "Torch" = some (exTorch.get i)
        ∧ (exTorch.get i).CraftedItem = "Torch"
        ∧ ∀ j : Fin exTorch.length, j < i →
            (exTorch.get j).CraftedItem ≠ "Torch" :=
  ⟨by decide,
    c4_first_occurrence_wins exTorch "Torch" (by decide)
      ⟨torchA, by decide, rfl⟩⟩

/-- Helper for C9: the fold behind `craftableByName` never inserts the empty
key, so looking it up stays `none`. -/
theorem lookup_empty_foldl_craftableStep :
    ∀ (l : List CraftingRecipe) (m : List (String × CraftingRecipe)),
      m.lookup "" = none → (l.foldl craftableStep m).lookup "" = none
  | [], _, hm => hm
  | r :: t, m, hm => by
    rw [List.foldl_cons]
    apply lookup_empty_foldl_craftableStep t
    by_cases hk : r.CraftedItem ≠ "" ∧ (m.lookup r.CraftedItem).isNone
    · have hstep : craftableStep m r = m ++ [(r.CraftedItem, r)] := by
        simp [craftableStep, hk]
      have hne : (("" : String) == r.CraftedItem) = false :=
        beq_false_of_ne (fun hh => hk.1 hh.symm)
      rw [hstep, List.lookup_append, hm, Option.none_or, List.lookup_cons, hne]
      rfl
    · have hstep : craftableStep m r = m := by
        unfold craftableStep
        rw [if_neg hk]
      rw [hstep]
      exact hm

/-- C9: a record with an empty `CraftedItem` is never entered into
`craftableByName`, so pushing the empty ingredient name is always a no-op on
the navigation stack, whatever the dataset, parent record and stack. -/
theorem c9_empty_name_never_pushable (items : List CraftingRecipe)
    (parentRecipe : Option CraftingRecipe) (stack : List CraftingRecipe) :
    craftableLookup items "" = none
    ∧ openIngredient items "" parentRecipe stack = stack := by
  have h : craftableLookup items "" = none :=
    lookup_empty_foldl_craftableStep items [] rfl
  exact ⟨h, by simp [openIngredient, h]⟩

/-- C8: the ingredient list pairs `SourceItem[i]` with `SourceQuantity[i]`
when the quantity exists at that index, and with the default `1` when the
quantity list is too short; the displayed list always has one entry per
ingredient. -/
theorem c8_quantity_defaults (r : CraftingRecipe) (i : Nat) :
    (ingredients r).length = r.SourceItem.length
    ∧ (ingredients r)[i]?
        = (r.SourceItem[i]?).map
            (fun nm => (nm, (r.SourceQuantity[i]?).getD 1))
    ∧ (r.SourceQuantity.length ≤ i → (r.SourceQuantity[i]?).getD 1 = 1)
    ∧ ∀ hq : i < r.SourceQuantity.length,
        (r.SourceQuantity[i]?).getD 1 = r.SourceQuantity.get ⟨i, hq⟩ := by
  refine ⟨?_, ?_, ?_, ?_⟩
  · simp [ingredients, List.enum]
  · simp [ingredients, List.enum, List.getElem?_enumFrom]
    cases r.SourceItem[i]? <;> simp
  · intro hle
    simp [List.getElem?_eq_none hle]
  · intro hq
    simp [List.getElem?_eq_getElem hq]

/-- Witness for `c8_quantity_defaults`: on the mismatched record
(`SourceItem` has two entries, `SourceQuantity` one), index `1` is displayed
with the default quantity `1`. -/
theorem c8_quantity_defaults_witness :
    mismatchRec.SourceQuantity.length ≤ 1
    ∧ (ingredients mismatchRec)[1]?
        = (mismatchRec.SourceItem[1]?).map
            (fun nm => (nm, (mismatchRec.SourceQuantity[1]?).getD 1))
    ∧ (mismatchRec.SourceQuantity[1]?).getD 1 = 1 :=
  ⟨by decide, (c8_quantity_defaults mismatchRec 1).2.1,
    (c8_quantity_defaults mismatchRec 1).2.2.1 (by decide)⟩

end CraftingIndex
